import Mathlib

/-!
Verification development for the bookie markdown-to-PDF compiler
(github.com/opd-ai/bookie).

The Go sources are shallowly embedded: strings are lists of characters,
the gofpdf string-width oracle is an additive per-character width
function, PDF coordinates are rationals (millimetres), and the mutable
PDF document is an explicit state record together with a log of emitted
drawing operations.  Each definition mirrors one Go function and is
named after it.
-/

namespace Bookie

/-- Strings of the Go program are modelled as lists of characters. -/
abbrev Str := List Char

/-- Coerces a Lean string literal into the character-list model. -/
def chars (s : String) : Str := s.data

/-- Per-character width oracle abstracting gofpdf GetStringWidth: the
width of a string is the sum of its character widths (gofpdf sums the
font's per-rune widths; the float arithmetic is modelled as exact). -/
def widthN (cw : Char → Nat) (s : Str) : Nat := (s.map cw).sum

/-- String width as a rational, for comparison against rational bounds
(gofpdf widths are floats; the model is exact arithmetic). -/
def widthQ (cw : Char → Nat) (s : Str) : ℚ := (widthN cw s : ℚ)

/-- Go strings.Split(s, " "): splits on every single space character;
the empty string yields one empty field. -/
def splitOnSpace : Str → List Str
  | [] => [[]]
  | c :: cs =>
    if c = ' ' then [] :: splitOnSpace cs
    else
      match splitOnSpace cs with
      | [] => [[c]]
      | w :: ws => (c :: w) :: ws

/-- Go strings.Join(ls, " "). -/
def joinSpace : List Str → Str
  | [] => []
  | [l] => l
  | l :: l2 :: ls => l ++ ' ' :: joinSpace (l2 :: ls)

/-- The word-accumulation loop of BookCompiler.SplitText (src/table.go
lines 196-229): greedily packs words into the current line, flushing
when the candidate line exceeds the width bound. -/
def wrapLoop (cw : Char → Nat) (w : ℚ) : Str → List Str → List Str
  | cl, [] => if cl = [] then [] else [cl]
  | cl, v :: vs =>
    if (widthN cw (if cl = [] then v else cl ++ ' ' :: v) : ℚ) > w then
      if cl = [] then v :: wrapLoop cw w [] vs
      else cl :: wrapLoop cw w v vs
    else wrapLoop cw w (if cl = [] then v else cl ++ ' ' :: v) vs

/-- BookCompiler.SplitText (src/table.go lines 196-229): splits text
into lines that fit within the given width; empty input yields nil. -/
def SplitText (cw : Char → Nat) (text : Str) (w : ℚ) : List Str :=
  if text = [] then [] else wrapLoop cw w [] (splitOnSpace text)

/-- Space-joined tail of a word list: the string " u1 u2 ... un". -/
def joinTail (us : List Str) : Str := (us.map (fun u => ' ' :: u)).flatten

/-! Chapter discovery: episode-number extraction and sorting
(src/chapter.go, src/util.go). -/

/-- Character class of the Go regexp escape for whitespace, which
matches exactly tab, newline, form feed, carriage return and space. -/
def isGoRegexSpace (c : Char) : Bool :=
  (c == ' ') || (c == '\t') || (c == '\n') || (c == '\x0c') || (c == '\r')

/-- Boolean test that pat is an initial segment of s. -/
def startsWithStr : Str → Str → Bool
  | [], _ => true
  | _ :: _, [] => false
  | a :: as, b :: bs => (a == b) && startsWithStr as bs

/-- Strips trailing slash characters from a path. -/
def dropTrailingSlashes (p : Str) : Str :=
  (p.reverse.dropWhile (fun c => c == '/')).reverse

/-- Go filepath.Base: the last element of the path; "." for the empty
path, "/" when the path consists entirely of slashes. -/
def goBase (p : Str) : Str :=
  if p = [] then chars "."
  else
    let q := dropTrailingSlashes p
    if q = [] then chars "/"
    else (q.reverse.takeWhile (fun c => c != '/')).reverse

/-- Leftmost match of the Go regexp for an episode number
(chapter.go line 39): at each position, the literal "Episode", then a
run of regexp whitespace, then a maximal non-empty digit run, which is
the captured group.  Scanning advances one character at a time. -/
def scanEpisode : Str → Option Str
  | [] => none
  | c :: cs =>
    if startsWithStr (chars "Episode") (c :: cs) then
      let ds := (((c :: cs).drop 7).dropWhile isGoRegexSpace).takeWhile Char.isDigit
      if ds = [] then scanEpisode cs else some ds
    else scanEpisode cs

/-- Decimal digit-run value. -/
def digitsToNat (ds : Str) : Nat :=
  ds.foldl (fun acc c => 10 * acc + (c.toNat - Char.toNat '0')) 0

/-- extractEpisodeNumber (src/util.go lines 49-66): applies the episode
regexp to the path basename and parses the captured digits with
Sscanf; no match, an empty path, or an int64-overflowing value
yields 0. -/
def extractEpisodeNumber (path : Str) : Nat :=
  if path = [] then 0
  else
    match scanEpisode (goBase path) with
    | none => 0
    | some ds => if digitsToNat ds < 2 ^ 63 then digitsToNat ds else 0

/-- Chapter descriptor (src/types.go): directory path, sorted markdown
files, and the image index as an association list keyed by basename. -/
structure Chapter where
  Path : Str
  Files : List Str
  Images : List (Str × Str)
deriving DecidableEq

/-- The comparison closure passed to sort.Slice by sortChapters
(src/chapter.go lines 241-247). -/
def chapterLess (a b : Chapter) : Bool :=
  decide (extractEpisodeNumber a.Path < extractEpisodeNumber b.Path)

/-- Contract of Go sort.Slice, which the documentation states is not
guaranteed to be stable: the output is some permutation of the input
in which no later element compares less than an earlier one. -/
def sortSliceSpec (less : Chapter → Chapter → Bool) (l out : List Chapter) : Prop :=
  l.Perm out ∧ out.Pairwise (fun a b => less b a = false)

/-- sortChapters (src/chapter.go lines 241-247) as a relation between
the discovered chapter list and the sorted list, via the sort.Slice
contract. -/
def sortChaptersRel (l out : List Chapter) : Prop :=
  sortSliceSpec chapterLess l out

/-! Path resolution for images (src/render.go lines 92-126). -/

/-- Go filepath.Join restricted to the two-argument form used by the
source; path cleaning is omitted (no candidate path in the source
contains dot segments). -/
def pathJoin (a b : Str) : Str :=
  if a = [] then b else if b = [] then a else a ++ '/' :: b

/-- Go filepath.Dir: the path up to the final separator with trailing
slashes removed; "." when there is no separator (cleaning omitted). -/
def pathDir (p : Str) : Str :=
  let pre := (p.reverse.dropWhile (fun c => c != '/')).reverse
  if pre = [] then chars "."
  else
    let q := dropTrailingSlashes pre
    if q = [] then chars "/" else q

/-- isJPEGImage (src/util.go lines 178-185): case-insensitive .jpg or
.jpeg suffix test; the empty string is rejected. -/
def isJPEGImage (src : Str) : Bool :=
  if src = [] then false
  else
    let l := src.map Char.toLower
    (chars ".jpg").isSuffixOf l || (chars ".jpeg").isSuffixOf l

/-! The HTML node tree (golang.org/x/net/html nodes as consumed by the
renderer: element, text, and all other node kinds). -/

inductive HNode where
  | elem (tag : Str) (attrs : List (Str × Str)) (children : List HNode)
  | text (data : Str)
  | other (children : List HNode)

/-- Child list of a node. -/
def HNode.children : HNode → List HNode
  | .elem _ _ cs => cs
  | .text _ => []
  | .other cs => cs

/-- Whether the node is an element node. -/
def HNode.isElem : HNode → Bool
  | .elem _ _ _ => true
  | _ => false

/-- Ancestor record: whether the ancestor is an element node, and its
tag (findParent only inspects these two fields). -/
def nodeInfo : HNode → Bool × Str
  | .elem t _ _ => (true, t)
  | .text _ => (false, [])
  | .other _ => (false, [])

/-- Tag test for element nodes. -/
def isElemTag (n : HNode) (tag : String) : Bool :=
  match n with
  | .elem t _ _ => t = chars tag
  | _ => false

/-- getAttr (src/util.go lines 127-139): first attribute with the
given key, or the empty string; an empty key finds nothing. -/
def getAttr (attrs : List (Str × Str)) (key : Str) : Str :=
  if key = [] then []
  else
    match attrs.find? (fun a => a.1 = key) with
    | some a => a.2
    | none => []

/-- findParent (src/util.go lines 79-91) over the recorded ancestor
chain (nearest first): true when some element ancestor has the tag;
an empty tag finds nothing. -/
def findParentB (anc : List (Bool × Str)) (tag : Str) : Bool :=
  if tag = [] then false
  else anc.any (fun a => a.1 && decide (a.2 = tag))

/-- countPreviousSiblings (src/util.go lines 102-115): the number of
element nodes among the preceding siblings. -/
def countPreviousSiblings (lsibs : List HNode) : Nat :=
  lsibs.countP (fun n => n.isElem)

mutual
/-- getTextContent (src/util.go lines 151-169): concatenation of all
text-node data in the subtree, in document order. -/
def getTextContent : HNode → Str
  | .text s => s
  | .elem _ _ cs => getTextContentL cs
  | .other cs => getTextContentL cs

def getTextContentL : List HNode → Str
  | [] => []
  | c :: cs => getTextContent c ++ getTextContentL cs
end

/-- Modelled from the spec: cleanText is not among the provided
sources; per the specification the renderer writes the text node's
"cleaned text (whitespace-collapsed)", so runs of whitespace are
collapsed to a single space.  The boolean records whether the
previous character was whitespace. -/
def cleanTextAux : Bool → Str → Str
  | _, [] => []
  | prevSpace, c :: cs =>
    if isGoRegexSpace c then
      if prevSpace then cleanTextAux true cs
      else ' ' :: cleanTextAux true cs
    else c :: cleanTextAux false cs

/-- Whitespace-collapsed text (see cleanTextAux). -/
def cleanText (s : Str) : Str := cleanTextAux false s

/-- Go strings.TrimSpace on the model's whitespace class. -/
def trimSpaceG (s : Str) : Str :=
  ((s.dropWhile isGoRegexSpace).reverse.dropWhile isGoRegexSpace).reverse

/-- Go fmt's decimal rendering of a natural number. -/
def natToStr (n : Nat) : Str := Nat.toDigits 10 n

/-! PDF provider model: layout constants (src/rendercore.go lines
14-27, src/table.go lines 11-19, part_003 lines 32-47), the document
state, and the emitted-operation log. -/

def defaultLineHeight : ℚ := 5
def defaultFontSize : ℚ := 12
def indentWidth : ℚ := 10
def pageWidth : ℚ := 190
def tableWidth : ℚ := 170
def tableLineHeight : ℚ := 6
def tableFontSize : ℚ := 10
def pdfMargin : ℚ := 20
/-- A4 page height in millimetres, as returned by pdf.PageSize. -/
def pageHeightA4 : ℚ := 297

def fontStyleNormal : Str := []
def fontStyleBold : Str := chars "B"
def fontStyleItalic : Str := chars "I"

/-- One gofpdf drawing or state operation, as emitted by the renderer. -/
inductive Op where
  | addPage
  | ln (h : ℚ)
  | write (h : ℚ) (txt : Str)
  | setFont (family style : Str) (size : ℚ)
  | setX (x : ℚ)
  | setY (y : ℚ)
  | setXY (x y : ℚ)
  | cell (w h : ℚ) (txt : Str)
  | rect (x y w h : ℚ) (style : Str)
  | multiCell (w h : ℚ) (txt : Str)
  | line (x1 y1 x2 y2 : ℚ)
  | setTextColor (r g b : Nat)
  | setFillColor (r g b : Nat)
  | image (path : Str) (x y w h : ℚ)
deriving DecidableEq

/-- Current font selection of the PDF document. -/
structure Font where
  family : Str
  style : Str
  size : ℚ
deriving DecidableEq

/-- Mutable state of the gofpdf document visible to the renderer. -/
structure RState where
  font : Font
  x : ℚ
  y : ℚ
  pageNo : Nat
  textColor : Nat × Nat × Nat
  fillColor : Nat × Nat × Nat
deriving DecidableEq

/-- Read-only rendering environment: compiler configuration, current
chapter and file, the file system, registered image dimensions, and
the per-character width oracle.  chapterImages is none when the
type-erased currentChapter is not a Chapter or its map is nil. -/
structure REnv where
  textFont : Str
  chapterFont : Str
  rootDir : Str
  currentFile : Str
  chapterImages : Option (List (Str × Str))
  fsExists : Str → Bool
  imgDims : Str → Option (ℚ × ℚ)
  cw : Char → Nat

/-- Rendering errors of the embedded functions; childFailed,
siblingFailed and wrapErr model the fmt.Errorf wrapping in
renderChildren, renderSiblings and the driver. -/
inductive RErr where
  | imageNotFound (src : Str)
  | unsupportedImage (src : Str)
  | loadImageFailed (p : Str)
  | invalidTable
  | emptyTable
  | outputPathNotSet
  | childFailed (e : RErr)
  | siblingFailed (e : RErr)
  | wrapErr (e : RErr)
deriving DecidableEq

/-- Outcome of a rendering step: final state, operations emitted
during the step, and the error if one occurred. -/
structure RRes where
  s : RState
  ops : List Op
  err : Option RErr

/-- gofpdf AddPage: next page, cursor to the top-left margin corner. -/
def pAddPage (s : RState) : RState × List Op :=
  ({ s with pageNo := s.pageNo + 1, x := pdfMargin, y := pdfMargin }, [.addPage])

/-- gofpdf Ln(h): vertical advance, abscissa back to the left margin. -/
def pLn (h : ℚ) (s : RState) : RState × List Op :=
  ({ s with y := s.y + h, x := pdfMargin }, [.ln h])

/-- gofpdf Write: flowing text at the cursor; the model advances the
abscissa by the measured width (right-margin wrapping abstracted). -/
def pWrite (cw : Char → Nat) (h : ℚ) (txt : Str) (s : RState) : RState × List Op :=
  ({ s with x := s.x + widthQ cw txt }, [.write h txt])

def pSetFont (family style : Str) (size : ℚ) (s : RState) : RState × List Op :=
  ({ s with font := ⟨family, style, size⟩ }, [.setFont family style size])

def pSetX (v : ℚ) (s : RState) : RState × List Op :=
  ({ s with x := v }, [.setX v])

/-- gofpdf SetY also moves the abscissa back to the left margin. -/
def pSetY (v : ℚ) (s : RState) : RState × List Op :=
  ({ s with y := v, x := pdfMargin }, [.setY v])

def pSetXY (vx vy : ℚ) (s : RState) : RState × List Op :=
  ({ s with x := vx, y := vy }, [.setXY vx vy])

/-- gofpdf Cell advances the abscissa by the cell width. -/
def pCell (wd h : ℚ) (txt : Str) (s : RState) : RState × List Op :=
  ({ s with x := s.x + wd }, [.cell wd h txt])

def pRect (x y wd h : ℚ) (style : Str) (s : RState) : RState × List Op :=
  (s, [.rect x y wd h style])

/-- gofpdf MultiCell: returns to the left margin and advances the
ordinate (one line in the model). -/
def pMultiCell (wd h : ℚ) (txt : Str) (s : RState) : RState × List Op :=
  ({ s with x := pdfMargin, y := s.y + h }, [.multiCell wd h txt])

def pLine (x1 y1 x2 y2 : ℚ) (s : RState) : RState × List Op :=
  (s, [.line x1 y1 x2 y2])

def pSetTextColor (r g b : Nat) (s : RState) : RState × List Op :=
  ({ s with textColor := (r, g, b) }, [.setTextColor r g b])

def pSetFillColor (r g b : Nat) (s : RState) : RState × List Op :=
  ({ s with fillColor := (r, g, b) }, [.setFillColor r g b])

def pImage (path : Str) (x y wd h : ℚ) (s : RState) : RState × List Op :=
  (s, [.image path x y wd h])

/-- Sequences two operation-emitting steps, concatenating their logs. -/
def pseq (a : RState × List Op) (f : RState → RState × List Op) : RState × List Op :=
  ((f a.1).1, a.2 ++ (f a.1).2)

/-! Table rendering (src/table.go). -/

def parseTableRowL : List HNode → List Str × Bool
  | [] => ([], false)
  | td :: rest =>
    let r := parseTableRowL rest
    match td with
    | .elem tag _ _ =>
      if tag = chars "td" ∨ tag = chars "th" then
        (getTextContent td :: r.1, (decide (tag = chars "th")) || r.2)
      else r
    | _ => r

/-- parseTableRow (src/table.go lines 91-106): cell texts of the
direct td/th children, and whether any cell is a th. -/
def parseTableRow (tr : HNode) : List Str × Bool := parseTableRowL tr.children

def parseTableStructureL : List HNode → List Str × List (List Str)
  | [] => ([], [])
  | tr :: rest =>
    let r := parseTableStructureL rest
    if isElemTag tr "tr" then
      let row := parseTableRow tr
      if row.2 then (row.1 ++ r.1, r.2)
      else if row.1 ≠ [] then (r.1, row.1 :: r.2)
      else r
    else r

/-- parseTableStructure (src/table.go lines 70-88): header cells
(flattened across header rows) and non-empty data rows, from the
direct tr children. -/
def parseTableStructure (n : HNode) : List Str × List (List Str) :=
  parseTableStructureL n.children

/-- determineColumnCount (src/table.go lines 109-117): header count if
any, else the first data row's arity, else zero. -/
def determineColumnCount (headers : List Str) (rows : List (List Str)) : Nat :=
  if headers.length > 0 then headers.length
  else
    match rows with
    | r :: _ => r.length
    | [] => 0

/-- Column count in the words of the claim: the maximum of the header
count, the first data row's arity, and zero. -/
def claimColumnCount (headers : List Str) (rows : List (List Str)) : Nat :=
  max (max headers.length (match rows with | r :: _ => r.length | [] => 0)) 0

/-- calculateRowHeight (src/table.go lines 165-177). -/
def calculateRowHeight (cw : Char → Nat) (row : List Str) (colWidth : ℚ) : ℚ :=
  row.foldl
    (fun mh cell =>
      let h := ((SplitText cw cell colWidth).length : ℚ) * tableLineHeight
      if h > mh then h else mh)
    tableLineHeight

/-- renderTableHeaders (src/table.go lines 136-148). -/
def renderTableHeaders (headers : List Str) (colWidth : ℚ) (s : RState) :
    RState × List Op :=
  pseq
    (headers.foldl
      (fun acc h =>
        pseq (pseq acc (fun st => pRect st.x st.y colWidth tableLineHeight (chars "F") st))
          (pCell colWidth tableLineHeight h))
      (pSetFillColor 240 240 240 s))
    (pLn tableLineHeight)

/-- renderTableRow (src/table.go lines 180-193). -/
def renderTableRowGo (row : List Str) (colWidth rowHeight : ℚ) (s : RState) :
    RState × List Op :=
  let y := s.y
  let x := s.x
  pseq
    (row.enum.foldl
      (fun acc p =>
        let cellX := x + (p.1 : ℚ) * colWidth
        pseq
          (pseq (pseq acc (pRect cellX y colWidth rowHeight (chars "D")))
            (pMultiCell colWidth tableLineHeight p.2))
          (pSetXY (cellX + colWidth) y))
      (s, []))
    (pLn rowHeight)

/-- renderTableRows (src/table.go lines 151-162). -/
def renderTableRows (env : REnv) (rows : List (List Str)) (colWidth : ℚ)
    (s : RState) : RState × List Op :=
  rows.foldl
    (fun acc row =>
      pseq acc (renderTableRowGo row colWidth (calculateRowHeight env.cw row colWidth)))
    (pSetFont env.textFont fontStyleNormal tableFontSize s)

/-- renderTableContent (src/table.go lines 120-133). -/
def renderTableContent (env : REnv) (headers : List Str)
    (rows : List (List Str)) (colWidth : ℚ) (s : RState) : RState × List Op :=
  let a := pSetFont env.textFont fontStyleBold tableFontSize s
  let b := if headers ≠ [] then pseq a (renderTableHeaders headers colWidth) else a
  pseq b (renderTableRows env rows colWidth)

/-- renderTable (src/table.go lines 42-67): rejects non-table nodes,
parses the structure, errors on an empty table before emitting any
operation, and otherwise renders at width tableWidth / colCount. -/
def renderTable (env : REnv) (n : HNode) (s : RState) : RRes :=
  if ¬ isElemTag n "table" then ⟨s, [], some .invalidTable⟩
  else
    let p := parseTableStructure n
    let c := determineColumnCount p.1 p.2
    if c = 0 then ⟨s, [], some .emptyTable⟩
    else
      let r := renderTableContent env p.1 p.2 (tableWidth / (c : ℚ)) s
      ⟨r.1, r.2, none⟩

/-! Image rendering (src/render.go lines 92-126, src/util.go lines
327-358). -/

/-- The chapter-index lookup of renderImage (src/render.go lines
100-104): the mapped path when the type-erased chapter holds an image
map containing src, the empty string otherwise. -/
def indexLookup (env : REnv) (src : Str) : Str :=
  match env.chapterImages with
  | some m =>
    match m.find? (fun kv => kv.1 = src) with
    | some kv => kv.2
    | none => []
  | none => []

/-- The path-resolution logic of renderImage (src/render.go lines
98-119): the chapter image index is consulted first and its entry is
used verbatim when non-empty; otherwise the first of src, rootDir/src
and dir(currentFile)/src that exists on the file system is used. -/
def resolveImagePath (env : REnv) (src : Str) : Option Str :=
  if indexLookup env src ≠ [] then some (indexLookup env src)
  else
    [src, pathJoin env.rootDir src, pathJoin (pathDir env.currentFile) src].find?
      (fun p => env.fsExists p)

/-- Resolution in the words of the claim: the first existing path
among the chapter-index entry, src itself, rootDir/src and
dir(currentFile)/src. -/
def claimResolveImagePath (env : REnv) (src : Str) : Option Str :=
  ((match env.chapterImages with
    | some m =>
      match m.find? (fun kv => kv.1 = src) with
      | some kv => [kv.2]
      | none => []
    | none => []) ++
    [src, pathJoin env.rootDir src, pathJoin (pathDir env.currentFile) src]).find?
    (fun p => env.fsExists p)

/-- handleImage (src/util.go lines 327-358): JPEG check, leading line
break, image registration, scaling to 100 mm width, conditional page
break, drawing, caption, trailing breaks. -/
def handleImage (env : REnv) (src alt : Str) (s : RState) : RRes :=
  if ¬ isJPEGImage src then ⟨s, [], some (.unsupportedImage src)⟩
  else
    let a := pLn defaultLineHeight s
    let x := a.1.x
    let y := a.1.y
    match env.imgDims src with
    | none => ⟨a.1, a.2, some (.loadImageFailed src)⟩
    | some dims =>
      let imgHeight := dims.2 * 100 / dims.1
      let b := if y + imgHeight > pageHeightA4 - 30 then pseq a pAddPage else a
      let yD := if y + imgHeight > pageHeightA4 - 30 then b.1.y else y
      let c := pseq b (pImage src x yD 100 0)
      let d := pseq c (pSetY (yD + imgHeight + 5))
      let e :=
        if alt ≠ [] then
          pseq (pseq (pseq d (pSetFont env.textFont fontStyleItalic 10))
            (pWrite env.cw defaultLineHeight alt)) (pLn defaultLineHeight)
        else d
      let f := pseq e (pLn defaultLineHeight)
      ⟨f.1, f.2, none⟩

/-- renderImage (src/render.go lines 92-126): empty src is a no-op;
an unresolvable src is the image-not-found error with nothing
rendered; otherwise the resolved path is handed to handleImage. -/
def renderImage (env : REnv) (attrs : List (Str × Str)) (s : RState) : RRes :=
  let src := getAttr attrs (chars "src")
  if src = [] then ⟨s, [], none⟩
  else
    match resolveImagePath env src with
    | none => ⟨s, [], some (.imageNotFound src)⟩
    | some p => handleImage env p (getAttr attrs (chars "alt")) s

/-- renderHorizontalRule (src/util.go lines 308-314). -/
def renderHorizontalRule (s : RState) : RRes :=
  let a := pLine s.x s.y (s.x + pageWidth) s.y s
  let b := pseq a (pLn 8)
  ⟨b.1, b.2, none⟩

/-- renderTextNode (src/rendercore.go lines 131-137): writes the
cleaned text unless it is whitespace-only. -/
def renderTextNode (env : REnv) (data : Str) (s : RState) : RRes :=
  let text := cleanText data
  if trimSpaceG text ≠ [] then
    let a := pWrite env.cw defaultLineHeight text s
    ⟨a.1, a.2, none⟩
  else ⟨s, [], none⟩

/-- needsSpacing (src/render.go lines 188-198). -/
def needsSpacing (n : HNode) : Bool :=
  match n with
  | .elem t _ _ =>
    [chars "h1", chars "h2", chars "h3", chars "p", chars "ul", chars "ol",
      chars "table", chars "blockquote"].contains t
  | _ => false

/-- setHeadingStyle (src/util.go lines 290-293). -/
def setHeadingStyleGo (env : REnv) (size spacing : ℚ) (s : RState) :
    RState × List Op :=
  pseq (pSetFont env.chapterFont fontStyleBold size s) (pLn spacing)

/-- The list-item marker as written by renderListElement (src/util.go
lines 388-394): numbered when some ancestor is an ol element. -/
def liMarker (anc : List (Bool × Str)) (lsibs : List HNode) : Str :=
  if findParentB anc (chars "ol") then
    natToStr (countPreviousSiblings lsibs + 1) ++ chars ". "
  else chars "• "

/-- The list-item marker in the words of the claim: decided by the
li's parent list element (the nearest list ancestor), "• " under a
ul and "N. " under an ol. -/
def claimLiMarker (anc : List (Bool × Str)) (lsibs : List HNode) : Str :=
  match anc.find? (fun a => a.1 && (decide (a.2 = chars "ul") || decide (a.2 = chars "ol"))) with
  | some a =>
    if a.2 = chars "ol" then natToStr (countPreviousSiblings lsibs + 1) ++ chars ". "
    else chars "• "
  | none => chars "• "

/-! Node sizes, the termination measure of the mutually recursive
renderer. -/

mutual
def sizeN : HNode → Nat
  | .text _ => 1
  | .elem _ _ cs => 1 + sizeL cs
  | .other cs => 1 + sizeL cs

def sizeL : List HNode → Nat
  | [] => 0
  | c :: cs => 1 + sizeN c + sizeL cs
end

/-! The element renderer (src/rendercore.go, src/render.go,
src/util.go): mutually recursive node dispatch.  Context arguments:
anc is the ancestor chain (nearest first, as consulted by findParent),
lsibs the preceding siblings (nearest first, as consulted by
countPreviousSiblings), rs the following siblings. -/

mutual

/-- renderNode (src/rendercore.go lines 56-66): spacing hook, then
renderHTML. -/
def renderNode (env : REnv) (anc : List (Bool × Str)) (lsibs : List HNode)
    (n : HNode) (rs : List HNode) (s : RState) : RRes :=
  if needsSpacing n then
    let a := pLn defaultLineHeight s
    let r := renderHTML env anc lsibs n rs a.1
    ⟨r.s, a.2 ++ r.ops, r.err⟩
  else renderHTML env anc lsibs n rs s
termination_by 10 * (sizeN n + sizeL rs) + 5
decreasing_by all_goals (try simp only [sizeN, sizeL]); all_goals omega

/-- renderHTML (src/rendercore.go lines 102-119): dispatch on the
node kind, with the deferred restoreTextState applied to the snapshot
(body font, normal style, 12 pt) on every exit path. -/
def renderHTML (env : REnv) (anc : List (Bool × Str)) (lsibs : List HNode)
    (n : HNode) (rs : List HNode) (s : RState) : RRes :=
  let r : RRes :=
    match n with
    | .text d => renderTextNode env d s
    | .elem tag attrs cs => renderElement env anc lsibs tag attrs cs s
    | .other _ => renderSiblings env anc (n :: lsibs) rs s
  let fin := pSetFont env.textFont fontStyleNormal defaultFontSize r.s
  ⟨fin.1, r.ops ++ fin.2, r.err⟩
termination_by 10 * (sizeN n + sizeL rs) + 4
decreasing_by all_goals (try simp only [sizeN, sizeL]); all_goals omega

/-- renderSiblings (src/render.go lines 215-222): renders the
following siblings in order, wrapping the first error. -/
def renderSiblings (env : REnv) (anc : List (Bool × Str)) (lsibs : List HNode)
    (rs : List HNode) (s : RState) : RRes :=
  match rs with
  | [] => ⟨s, [], none⟩
  | c :: rest =>
    let r := renderHTML env anc lsibs c rest s
    match r.err with
    | some e => ⟨r.s, r.ops, some (.siblingFailed e)⟩
    | none =>
      let r2 := renderSiblings env anc (c :: lsibs) rest r.s
      ⟨r2.s, r.ops ++ r2.ops, r2.err⟩
termination_by 10 * sizeL rs + 5
decreasing_by all_goals (try simp only [sizeN, sizeL]); all_goals omega

/-- renderChildren (src/rendercore.go lines 78-89): renders the child
list in order, wrapping the first error; lsibs accumulates the
already-rendered children. -/
def renderChildrenL (env : REnv) (anc : List (Bool × Str)) (lsibs : List HNode)
    (cs : List HNode) (s : RState) : RRes :=
  match cs with
  | [] => ⟨s, [], none⟩
  | c :: rest =>
    let r := renderNode env anc lsibs c rest s
    match r.err with
    | some e => ⟨r.s, r.ops, some (.childFailed e)⟩
    | none =>
      let r2 := renderChildrenL env anc (c :: lsibs) rest r.s
      ⟨r2.s, r.ops ++ r2.ops, r2.err⟩
termination_by 10 * sizeL cs + 6
decreasing_by all_goals (try simp only [sizeN, sizeL]); all_goals omega

/-- renderElement (src/rendercore.go lines 150-170): tag dispatch;
unrecognized elements are a no-op whose children are not rendered. -/
def renderElement (env : REnv) (anc : List (Bool × Str)) (lsibs : List HNode)
    (tag : Str) (attrs : List (Str × Str)) (cs : List HNode) (s : RState) : RRes :=
  if [chars "h1", chars "h2", chars "h3", chars "h4", chars "h5", chars "h6"].contains tag then
    renderHeading env anc tag attrs cs s
  else if [chars "p", chars "blockquote", chars "pre", chars "code"].contains tag then
    renderBlockElement env anc tag attrs cs s
  else if [chars "ul", chars "ol", chars "li"].contains tag then
    renderListElement env anc lsibs tag attrs cs s
  else if [chars "em", chars "i", chars "strong", chars "b", chars "u"].contains tag then
    renderFormattingElement env anc tag attrs cs s
  else if tag = chars "table" then renderTable env (.elem tag attrs cs) s
  else if tag = chars "a" then renderLink env anc tag attrs cs s
  else if tag = chars "img" then renderImage env attrs s
  else if tag = chars "hr" then renderHorizontalRule s
  else ⟨s, [], none⟩
termination_by 10 * sizeL cs + 9
decreasing_by all_goals (try simp only [sizeN, sizeL]); all_goals omega

/-- renderHeading (src/util.go lines 220-245): near-bottom page
break, per-level page break or spacing and style, children, trailing
double line break on success. -/
def renderHeading (env : REnv) (anc : List (Bool × Str)) (tag : Str)
    (attrs : List (Str × Str)) (cs : List HNode) (s : RState) : RRes :=
  let a :=
    if s.y > pageHeightA4 - 100 then pAddPage s else (s, [])
  let b :=
    if tag = chars "h1" then pseq (pseq a pAddPage) (setHeadingStyleGo env 24 20)
    else if tag = chars "h2" then pseq (pseq a (pLn 20)) (setHeadingStyleGo env 20 15)
    else if tag = chars "h3" then pseq (pseq a (pLn 15)) (setHeadingStyleGo env 16 10)
    else pseq (pseq a (pLn 10)) (setHeadingStyleGo env 14 8)
  let r := renderChildrenL env ((true, tag) :: anc) [] cs b.1
  match r.err with
  | some e => ⟨r.s, b.2 ++ r.ops, some e⟩
  | none =>
    let c := pLn (defaultLineHeight * 2) r.s
    ⟨c.1, b.2 ++ r.ops ++ c.2, none⟩
termination_by 10 * sizeL cs + 8
decreasing_by all_goals (try simp only [sizeN, sizeL]); all_goals omega

/-- renderBlockElement (src/util.go lines 258-283). -/
def renderBlockElement (env : REnv) (anc : List (Bool × Str)) (tag : Str)
    (attrs : List (Str × Str)) (cs : List HNode) (s : RState) : RRes :=
  let a := if s.y > pageHeightA4 - 50 then pAddPage s else (s, [])
  if tag = chars "blockquote" then
    let b := pseq a (pLn defaultLineHeight)
    let r := renderBlockquote env anc tag cs b.1
    let c := pLn defaultLineHeight r.s
    ⟨c.1, b.2 ++ r.ops ++ c.2, r.err⟩
  else if tag = chars "pre" ∨ tag = chars "code" then
    let b := pseq a (pLn defaultLineHeight)
    let r := renderCode env anc tag cs b.1
    let c := pLn defaultLineHeight r.s
    ⟨c.1, b.2 ++ r.ops ++ c.2, r.err⟩
  else
    let b := pseq (pseq a (pSetFont env.textFont fontStyleNormal defaultFontSize))
      (pLn (defaultLineHeight / 2))
    let r := renderChildrenL env ((true, tag) :: anc) [] cs b.1
    match r.err with
    | some e => ⟨r.s, b.2 ++ r.ops, some e⟩
    | none =>
      let c := pLn defaultLineHeight r.s
      ⟨c.1, b.2 ++ r.ops ++ c.2, none⟩
termination_by 10 * sizeL cs + 8
decreasing_by all_goals (try simp only [sizeN, sizeL]); all_goals omega

/-- renderListElement (src/util.go lines 374-402). -/
def renderListElement (env : REnv) (anc : List (Bool × Str)) (lsibs : List HNode)
    (tag : Str) (attrs : List (Str × Str)) (cs : List HNode) (s : RState) : RRes :=
  if tag = chars "ul" ∨ tag = chars "ol" then
    let a := pLn 5 s
    let r := renderChildrenL env ((true, tag) :: anc) [] cs a.1
    match r.err with
    | some e => ⟨r.s, a.2 ++ r.ops, some e⟩
    | none =>
      let b := pLn 5 r.s
      ⟨b.1, a.2 ++ r.ops ++ b.2, none⟩
  else if tag = chars "li" then
    let indent := indentWidth + (if findParentB anc (chars "li") then indentWidth else 0)
    let a := pSetX (s.x + indent) s
    let b := pseq a (pWrite env.cw defaultLineHeight (liMarker anc lsibs))
    let r := renderChildrenL env ((true, tag) :: anc) [] cs b.1
    match r.err with
    | some e => ⟨r.s, b.2 ++ r.ops, some e⟩
    | none =>
      let c := pseq (pLn 5 r.s) (fun st => pSetX (st.x - indent) st)
      ⟨c.1, b.2 ++ r.ops ++ c.2, none⟩
  else ⟨s, [], none⟩
termination_by 10 * sizeL cs + 8
decreasing_by all_goals (try simp only [sizeN, sizeL]); all_goals omega

/-- renderFormattingElement (src/render.go lines 27-49). -/
def renderFormattingElement (env : REnv) (anc : List (Bool × Str)) (tag : Str)
    (attrs : List (Str × Str)) (cs : List HNode) (s : RState) : RRes :=
  if tag = chars "em" ∨ tag = chars "i" then
    let a := pSetFont env.textFont fontStyleItalic defaultFontSize s
    let r := renderChildrenL env ((true, tag) :: anc) [] cs a.1
    let b := pSetFont env.textFont fontStyleNormal defaultFontSize r.s
    ⟨b.1, a.2 ++ r.ops ++ b.2, r.err⟩
  else if tag = chars "strong" ∨ tag = chars "b" then
    let a := pSetFont env.textFont fontStyleBold defaultFontSize s
    let r := renderChildrenL env ((true, tag) :: anc) [] cs a.1
    let b := pSetFont env.textFont fontStyleNormal defaultFontSize r.s
    ⟨b.1, a.2 ++ r.ops ++ b.2, r.err⟩
  else if tag = chars "u" then
    let x := s.x
    let y := s.y
    let r := renderChildrenL env ((true, tag) :: anc) [] cs s
    match r.err with
    | some e => ⟨r.s, r.ops, some e⟩
    | none =>
      let wdt := widthQ env.cw (getTextContent (.elem tag attrs cs))
      let a := pLine x (y + 3) (x + wdt) (y + 3) r.s
      ⟨a.1, r.ops ++ a.2, none⟩
  else ⟨s, [], none⟩
termination_by 10 * sizeL cs + 8
decreasing_by all_goals (try simp only [sizeN, sizeL]); all_goals omega

/-- renderLink (src/render.go lines 65-74). -/
def renderLink (env : REnv) (anc : List (Bool × Str)) (tag : Str)
    (attrs : List (Str × Str)) (cs : List HNode) (s : RState) : RRes :=
  if getAttr attrs (chars "href") ≠ [] then
    let a := pSetTextColor 0 0 255 s
    let r := renderChildrenL env ((true, tag) :: anc) [] cs a.1
    let b := pSetTextColor 0 0 0 r.s
    ⟨b.1, a.2 ++ r.ops ++ b.2, r.err⟩
  else renderChildrenL env ((true, tag) :: anc) [] cs s
termination_by 10 * sizeL cs + 8
decreasing_by all_goals (try simp only [sizeN, sizeL]); all_goals omega

/-- renderBlockquote (src/render.go lines 142-149). -/
def renderBlockquote (env : REnv) (anc : List (Bool × Str)) (tag : Str)
    (cs : List HNode) (s : RState) : RRes :=
  let a := pseq (pSetX (s.x + 20) s) (pSetFont env.textFont fontStyleItalic defaultFontSize)
  let r := renderChildrenL env ((true, tag) :: anc) [] cs a.1
  let b := pseq (pSetX (r.s.x - 20) r.s) (pLn 8)
  ⟨b.1, a.2 ++ r.ops ++ b.2, r.err⟩
termination_by 10 * sizeL cs + 7
decreasing_by all_goals (try simp only [sizeN, sizeL]); all_goals omega

/-- renderCode (src/render.go lines 165-171). -/
def renderCode (env : REnv) (anc : List (Bool × Str)) (tag : Str)
    (cs : List HNode) (s : RState) : RRes :=
  let a := pSetFont (chars "Courier") fontStyleNormal 10 s
  let r := renderChildrenL env ((true, tag) :: anc) [] cs a.1
  let b := pseq (pSetFont env.textFont fontStyleNormal defaultFontSize r.s) (pLn 8)
  ⟨b.1, a.2 ++ r.ops ++ b.2, r.err⟩
termination_by 10 * sizeL cs + 7
decreasing_by all_goals (try simp only [sizeN, sizeL]); all_goals omega

end

/-! The compilation driver (src/unnamed/part_003). -/

/-- The page-number dynamics of generateContent (part_003 lines
118-139) and processChapter (part_003 lines 177-207): the ToC pass
leaves the document at page t; each chapter begins with AddPage and
its title and content consume k further pages (content abstracted by
k); between chapters, an odd current page receives one extra blank
page.  Returns the chapters' start pages and the final page. -/
def generateContentLoop : Nat → List Nat → List Nat × Nat
  | p, [] => ([], p)
  | p, k :: ks =>
    let start := p + 1
    let after := start + k
    let after2 := if ks ≠ [] ∧ after % 2 = 1 then after + 1 else after
    let r := generateContentLoop after2 ks
    (start :: r.1, r.2)

/-- Step results of the compilation driver, treated as parameters:
outcome of pass 1 (generateTableOfContents), of pass 2
(generateContent), and of the final OutputFileAndClose, which per the
provider contract either writes the complete file or writes nothing
and reports the error. -/
structure CompileEnv where
  outputPath : Str
  pass1 : Option RErr
  pass2 : Option RErr
  writeErr : Option RErr

/-- Compile (part_003 lines 62-76): validate, pass 1, pass 2, then
write the output file; the first error aborts.  The boolean records
whether the output file was written. -/
def CompileRun (e : CompileEnv) : Option RErr × Bool :=
  if e.outputPath = [] then (some (.wrapErr .outputPathNotSet), false)
  else
    match e.pass1 with
    | some er => (some (.wrapErr er), false)
    | none =>
      match e.pass2 with
      | some er => (some (.wrapErr er), false)
      | none =>
        match e.writeErr with
        | some er => (some er, false)
        | none => (none, true)

/-! Claim-side auxiliary definitions and concrete fixtures used by the
theorems below. -/

/-- Column count in the words of the amended claim: the header count
when there are headers, otherwise the arity of the first data row,
otherwise zero. -/
def amendedColumnCount (headers : List Str) (rows : List (List Str)) : Nat :=
  if headers = [] then (match rows with | r :: _ => r.length | [] => 0)
  else headers.length

/-- The texts of the write operations in an operation log, in order. -/
def writeTexts (ops : List Op) : List Str :=
  ops.filterMap (fun o => match o with | .write _ t => some t | _ => none)

/-- A concrete rendering environment: Times body font, Arial chapter
font, no current chapter image index, an empty file system, and unit
character widths. -/
def envFix : REnv :=
  ⟨chars "Times", chars "Arial", chars "root", chars "root/Episode01/a.md", none,
    fun _ => false, fun _ => none, fun _ => 1⟩

/-- A concrete environment whose chapter index maps a.jpg to a path
that does not exist on the file system, while a.jpg itself exists. -/
def envIdx : REnv :=
  ⟨chars "Times", chars "Arial", chars "root", chars "root/Episode01/a.md",
    some [(chars "a.jpg", chars "gone.jpg")],
    fun p => decide (p = chars "a.jpg"), fun _ => none, fun _ => 1⟩

/-- A concrete document state at the top of page 1 with the default
body style. -/
def stFix : RState := ⟨⟨chars "Times", [], 12⟩, 20, 20, 1, (0, 0, 0), (0, 0, 0)⟩

/-- A concrete document state whose cursor is 250 mm down the page,
inside the 100 mm heading threshold of the 297 mm page. -/
def stDeep : RState := ⟨⟨chars "Times", [], 12⟩, 20, 250, 1, (0, 0, 0), (0, 0, 0)⟩

/-- A concrete document state whose current style is italic. -/
def stItalic : RState :=
  ⟨⟨chars "Times", chars "I", 12⟩, 20, 20, 1, (0, 0, 0), (0, 0, 0)⟩

/-- A concrete table node with one single-cell header row and one
three-cell data row. -/
def cxTable : HNode :=
  HNode.elem (chars "table") []
    [HNode.elem (chars "tr") [] [HNode.elem (chars "th") [] [HNode.text (chars "a")]],
      HNode.elem (chars "tr") []
        [HNode.elem (chars "td") [] [HNode.text (chars "x")],
          HNode.elem (chars "td") [] [HNode.text (chars "y")],
          HNode.elem (chars "td") [] [HNode.text (chars "z")]]]

/-- A concrete ordered list whose list item contains a nested
unordered list with one item: ol > li > ul > li > "x". -/
def cxNestedList : HNode :=
  HNode.elem (chars "ol") []
    [HNode.elem (chars "li") []
      [HNode.elem (chars "ul") []
        [HNode.elem (chars "li") [] [HNode.text (chars "x")]]]]

/-- Concrete chapters with distinct paths and equal extracted episode
numbers (both 1). -/
def chapEp01 : Chapter := ⟨chars "root/Episode01", [chars "root/Episode01/a.md"], []⟩

def chapEp1 : Chapter := ⟨chars "root/Episode1", [chars "root/Episode1/b.md"], []⟩

/-- Concrete chapters with episode numbers 2 and 10. -/
def chapEp2 : Chapter := ⟨chars "root/Episode2", [chars "root/Episode2/a.md"], []⟩

def chapEp10 : Chapter := ⟨chars "root/Episode10", [chars "root/Episode10/a.md"], []⟩

lemma widthN_nil (cw : Char → Nat) : widthN cw [] = 0 := rfl

lemma widthN_append (cw : Char → Nat) (a b : Str) :
    widthN cw (a ++ b) = widthN cw a + widthN cw b := by
  simp [widthN]

lemma splitOnSpace_ne_nil (s : Str) : splitOnSpace s ≠ [] := by
  cases s with
  | nil => simp [splitOnSpace]
  | cons c cs =>
    by_cases h : c = ' '
    · simp [splitOnSpace, h]
    · simp only [splitOnSpace, if_neg h]
      cases hs : splitOnSpace cs <;> simp

lemma mem_wrapLoop_ne_nil (cw : Char → Nat) (w : ℚ) (hw : 0 ≤ w) :
    ∀ (vs : List Str) (cl l : Str), l ∈ wrapLoop cw w cl vs → l ≠ [] := by
  intro vs
  induction vs with
  | nil =>
    intro cl l hl
    by_cases hcl : cl = []
    · simp [wrapLoop, hcl] at hl
    · simp [wrapLoop, hcl] at hl
      simpa [hl] using hcl
  | cons v vs ih =>
    intro cl l hl
    simp only [wrapLoop] at hl
    by_cases hov : (widthN cw (if cl = [] then v else cl ++ ' ' :: v) : ℚ) > w
    · rw [if_pos hov] at hl
      by_cases hcl : cl = []
      · rw [if_pos hcl] at hl
        rcases List.mem_cons.mp hl with h | h
        · -- the overflowing lone word is non-empty since its width exceeds w ≥ 0
          intro hnil
          have hv : v = [] := h.symm.trans hnil
          rw [if_pos hcl, hv] at hov
          simp [widthN] at hov
          exact absurd hov (not_lt.mpr hw)
        · exact ih [] l h
      · rw [if_neg hcl] at hl
        rcases List.mem_cons.mp hl with h | h
        · rw [h]; exact hcl
        · exact ih v l h
    · rw [if_neg hov] at hl
      exact ih _ l hl

lemma splitOnSpace_all_nil {s : Str} (h : ∀ c ∈ s, c = ' ') :
    ∀ u ∈ splitOnSpace s, u = [] := by
  induction s with
  | nil => intro u hu; simpa [splitOnSpace] using hu
  | cons c cs ih =>
    intro u hu
    have hc : c = ' ' := h c (by simp)
    simp only [splitOnSpace, if_pos hc] at hu
    rcases List.mem_cons.mp hu with h1 | h1
    · exact h1
    · exact ih (fun x hx => h x (by simp [hx])) u h1

lemma wrapLoop_all_nil (cw : Char → Nat) (w : ℚ) (hw : 0 ≤ w) :
    ∀ (vs : List Str), (∀ v ∈ vs, v = []) → wrapLoop cw w [] vs = [] := by
  intro vs
  induction vs with
  | nil => simp [wrapLoop]
  | cons v vs ih =>
    intro h
    have hv : v = [] := h v (by simp)
    subst hv
    have hrest := ih (fun x hx => h x (by simp [hx]))
    have hge : ¬ (w < (0 : ℚ)) := not_lt.mpr hw
    simpa [wrapLoop, widthN, hge] using hrest

/-- C10: every line produced by SplitText is a non-empty string
(provided the width bound is at least the width of the empty string,
i.e. non-negative), and an input consisting only of spaces yields the
empty list of lines. -/
theorem splitText_lines_nonempty (cw : Char → Nat) (s : Str) (w : ℚ)
    (hw : 0 ≤ w) :
    (∀ l ∈ SplitText cw s w, l ≠ []) ∧
      ((∀ c ∈ s, c = ' ') → SplitText cw s w = []) := by
  constructor
  · intro l hl
    by_cases hs : s = []
    · simp [SplitText, hs] at hl
    · simp only [SplitText, if_neg hs] at hl
      exact mem_wrapLoop_ne_nil cw w hw _ _ l hl
  · intro hsp
    by_cases hs : s = []
    · simp [SplitText, hs]
    · simp only [SplitText, if_neg hs]
      exact wrapLoop_all_nil cw w hw _ (splitOnSpace_all_nil hsp)

/-- Witness for C10 at a concrete input: width oracle 1 per character,
bound 5, input "   " (three spaces). -/
theorem splitText_lines_nonempty_w :
    (∀ l ∈ SplitText (fun _ => 1) (chars "a bb c") 5, l ≠ []) ∧
      SplitText (fun _ => 1) (chars "   ") 5 = [] := by
  refine ⟨(splitText_lines_nonempty (fun _ => 1) (chars "a bb c") 5 (by norm_num)).1, ?_⟩
  exact (splitText_lines_nonempty (fun _ => 1) (chars "   ") 5 (by norm_num)).2
    (by decide)

lemma takeWhile_isDigit_nil {l : Str} (h : ∀ c ∈ l, c.isDigit = false) :
    l.takeWhile Char.isDigit = [] := by
  cases l with
  | nil => rfl
  | cons c cs => simp [List.takeWhile_cons, h c (by simp)]

lemma scanEpisode_none {s : Str} (h : ∀ c ∈ s, c.isDigit = false) :
    scanEpisode s = none := by
  induction s with
  | nil => rfl
  | cons c cs ih =>
    have hrest : ∀ x ∈ cs, x.isDigit = false := fun x hx => h x (by simp [hx])
    cases hst : startsWithStr (chars "Episode") (c :: cs) with
    | false => simp [scanEpisode, hst, ih hrest]
    | true =>
      have hds :
          (((c :: cs).drop 7).dropWhile isGoRegexSpace).takeWhile Char.isDigit = [] := by
        refine takeWhile_isDigit_nil (fun x hx => ?_)
        exact h x (List.drop_subset 7 (c :: cs)
          ((List.dropWhile_sublist isGoRegexSpace).subset hx))
      simp only [scanEpisode, hst, eq_self_iff_true, if_true]
      simp only [hds]
      simp [ih hrest]

lemma extractEpisodeNumber_zero_of_no_digit (p : Str)
    (h : ∀ c ∈ goBase p, c.isDigit = false) : extractEpisodeNumber p = 0 := by
  by_cases hp : p = []
  · simp [extractEpisodeNumber, hp]
  · simp [extractEpisodeNumber, hp, scanEpisode_none h]

/-- C1: in the committed pass the code does insert one blank page
after a chapter ending on an odd page, but the next chapter then
begins on an odd page, not an even one, because processChapter
unconditionally adds a fresh page: with the ToC ending on page 1 and
the first chapter occupying pages 2-3, a blank page 4 is inserted and
the second chapter begins on page 5. -/
theorem generateContent_blank_page_odd_start :
    generateContentLoop 1 [1, 0] = ([2, 5], 5) ∧ 5 % 2 = 1 := by decide

/-- C2 (counterexample): rendering a text node while the current
style is italic does not restore the italic style afterwards; the
renderer restores the fixed default instead. -/
theorem renderHTML_not_pre_call_style :
    (renderHTML envFix [] [] (.text (chars "x")) [] stItalic).s.font ≠ stItalic.font := by
  simp [renderHTML, renderTextNode, pWrite, pSetFont, cleanText, cleanTextAux,
    trimSpaceG, chars, isGoRegexSpace, envFix, stItalic, Font.mk.injEq,
    fontStyleNormal, defaultFontSize]

/-- C2 (amended): after renderHTML returns, on success or error, the
current text style equals the default body style (body font, normal
style, 12 pt); in particular the pre-call style is restored exactly
when it was the default body style. -/
theorem renderHTML_restores_default_style (env : REnv) (anc : List (Bool × Str))
    (lsibs : List HNode) (n : HNode) (rs : List HNode) (s : RState) :
    (renderHTML env anc lsibs n rs s).s.font =
      ⟨env.textFont, fontStyleNormal, defaultFontSize⟩ := by
  cases n <;> simp [renderHTML, pSetFont]

/-- C3 (counterexample): when the chapter index maps a.jpg to a
non-existing path while a.jpg itself exists, the code uses the index
entry without an existence check, whereas the claim's
first-existing-candidate rule would pick a.jpg. -/
theorem resolveImagePath_not_first_existing :
    resolveImagePath envIdx (chars "a.jpg") = some (chars "gone.jpg") ∧
    claimResolveImagePath envIdx (chars "a.jpg") = some (chars "a.jpg") ∧
    resolveImagePath envIdx (chars "a.jpg") ≠ claimResolveImagePath envIdx (chars "a.jpg") := by
  decide

/-- C3 (amended): a non-empty chapter-index entry is used verbatim
with no existence check; otherwise the first existing path among src,
rootDir/src and dir(currentFile)/src is used; if that also fails,
renderImage returns the image-not-found error and renders nothing. -/
theorem renderImage_resolution (env : REnv) (attrs : List (Str × Str)) (src : Str)
    (s : RState) :
    (indexLookup env src ≠ [] → resolveImagePath env src = some (indexLookup env src)) ∧
    (indexLookup env src = [] →
      resolveImagePath env src =
        [src, pathJoin env.rootDir src, pathJoin (pathDir env.currentFile) src].find?
          (fun p => env.fsExists p)) ∧
    (getAttr attrs (chars "src") = src → src ≠ [] → resolveImagePath env src = none →
      renderImage env attrs s = ⟨s, [], some (.imageNotFound src)⟩) := by
  refine ⟨fun h => ?_, fun h => ?_, fun hsrc hne hnone => ?_⟩
  · simp [resolveImagePath, h]
  · simp [resolveImagePath, h]
  · simp [renderImage, hsrc, hne, hnone]

/-- Witness for the amended C3 at a concrete input: no index entry
and an empty file system give the image-not-found error with no
operations emitted. -/
theorem renderImage_resolution_w :
    renderImage envFix [(chars "src", chars "a.jpg")] stFix =
      ⟨stFix, [], some (.imageNotFound (chars "a.jpg"))⟩ :=
  (renderImage_resolution envFix [(chars "src", chars "a.jpg")] (chars "a.jpg") stFix).2.2
    (by decide) (by decide) (by decide)

/-- C4 (counterexample): with one header cell and a first data row of
three cells the code lays the table out with one column, while the
claim's max formula gives three. -/
theorem determineColumnCount_not_max :
    determineColumnCount (parseTableStructure cxTable).1 (parseTableStructure cxTable).2 = 1 ∧
    claimColumnCount (parseTableStructure cxTable).1 (parseTableStructure cxTable).2 = 3 ∧
    (1 : Nat) ≠ 3 := by
  decide

/-- C4 (amended): the column count is headers-first (header count if
any headers, else the first data row's arity, else zero), and a zero
column count makes renderTable return the empty-table error with no
drawing operations emitted. -/
theorem renderTable_headersFirst_and_empty (env : REnv) (n : HNode) (s : RState)
    (ht : isElemTag n "table" = true) :
    (∀ H R, determineColumnCount H R = amendedColumnCount H R) ∧
    (determineColumnCount (parseTableStructure n).1 (parseTableStructure n).2 = 0 →
      renderTable env n s = ⟨s, [], some .emptyTable⟩) := by
  constructor
  · intro H R
    rcases H with _ | ⟨h, t⟩ <;> simp [determineColumnCount, amendedColumnCount]
  · intro h0
    simp [renderTable, ht, h0]

/-- Witness for the amended C4 at a concrete input: a table node with
no rows yields the empty-table error and no operations. -/
theorem renderTable_headersFirst_and_empty_w :
    renderTable envFix (HNode.elem (chars "table") [] []) stFix =
      ⟨stFix, [], some .emptyTable⟩ :=
  (renderTable_headersFirst_and_empty envFix (HNode.elem (chars "table") [] []) stFix
    (by decide)).2 (by decide)

/-- C5 (counterexample): two distinct chapters whose basenames both
extract episode number 1; the reversed order also satisfies the
sort.Slice contract used by sortChapters, so discovery order of ties
is not guaranteed to be preserved (Go's sort.Slice is documented as
not stable). -/
theorem sortChapters_not_stable :
    sortChaptersRel [chapEp01, chapEp1] [chapEp1, chapEp01] ∧
      ([chapEp1, chapEp01] : List Chapter) ≠ [chapEp01, chapEp1] := by
  refine ⟨⟨List.Perm.swap chapEp1 chapEp01 [], ?_⟩, ?_⟩
  · decide
  · decide

/-- C5 (amended): any output of sortChapters is a permutation of the
discovered chapters that is sorted ascending by the extracted episode
number, where a basename with no digit run after "Episode" extracts
0; the relative order of chapters with equal numbers is unspecified. -/
theorem sortChapters_sorted_by_episode (l out : List Chapter)
    (h : sortChaptersRel l out) :
    out.Pairwise (fun a b => extractEpisodeNumber a.Path ≤ extractEpisodeNumber b.Path) ∧
    l.Perm out ∧
    (∀ p : Str, (∀ c ∈ goBase p, c.isDigit = false) → extractEpisodeNumber p = 0) := by
  refine ⟨List.Pairwise.imp ?_ h.2, h.1, ?_⟩
  · intro a b hab
    have hn : ¬ (extractEpisodeNumber b.Path < extractEpisodeNumber a.Path) := by
      simpa [chapterLess] using hab
    omega
  · intro p hp
    exact extractEpisodeNumber_zero_of_no_digit p hp

/-- Witness for the amended C5 at a concrete input: chapters Episode2
and Episode10 in that order satisfy the contract and are sorted 2 ≤ 10. -/
theorem sortChapters_sorted_by_episode_w :
    ([chapEp2, chapEp10] : List Chapter).Pairwise
        (fun a b => extractEpisodeNumber a.Path ≤ extractEpisodeNumber b.Path) ∧
      ([chapEp2, chapEp10] : List Chapter).Perm [chapEp2, chapEp10] ∧
      (∀ p : Str, (∀ c ∈ goBase p, c.isDigit = false) → extractEpisodeNumber p = 0) :=
  sortChapters_sorted_by_episode [chapEp2, chapEp10] [chapEp2, chapEp10]
    (by exact ⟨List.Perm.refl _, by decide⟩)

/-- C6: the driver writes the output file exactly when it returns no
error; an error in pass 1 or pass 2 aborts with that error wrapped
and no file written; success implies both passes and the final write
succeeded. -/
theorem compile_fail_fast (e : CompileEnv) :
    ((CompileRun e).1 = none ↔ (CompileRun e).2 = true) ∧
    (e.outputPath ≠ [] → ∀ er, e.pass1 = some er →
      CompileRun e = (some (.wrapErr er), false)) ∧
    (e.outputPath ≠ [] → e.pass1 = none → ∀ er, e.pass2 = some er →
      CompileRun e = (some (.wrapErr er), false)) ∧
    ((CompileRun e).1 = none → e.pass1 = none ∧ e.pass2 = none ∧ e.writeErr = none) := by
  rcases e with ⟨op, p1, p2, wr⟩
  by_cases hop : op = [] <;> cases p1 <;> cases p2 <;> cases wr <;>
    simp [CompileRun, hop]

/-- Witness for C6 at a concrete input: a pass-1 error aborts with
the wrapped error and no file written. -/
theorem compile_fail_fast_w :
    CompileRun ⟨chars "out.pdf", some .emptyTable, none, none⟩ =
      (some (.wrapErr .emptyTable), false) :=
  (compile_fail_fast ⟨chars "out.pdf", some .emptyTable, none, none⟩).2.1
    (by decide) .emptyTable rfl

/-- C8 (counterexample): in ol > li > ul > li > "x", the inner li's
parent list is the ul, so the claim requires the bullet marker, but
the code finds the ol ancestor and writes "1. "; the write operations
of the whole render are exactly two numbered markers and the text. -/
theorem renderListElement_marker_not_parent_list :
    writeTexts (renderHTML envFix [] [] cxNestedList [] stFix).ops =
      [chars "1. ", chars "1. ", chars "x"] ∧
    claimLiMarker [(true, chars "ul"), (true, chars "li"), (true, chars "ol")] [] =
      chars "• " ∧
    liMarker [(true, chars "ul"), (true, chars "li"), (true, chars "ol")] [] =
      chars "1. " ∧
    chars "1. " ≠ chars "• " := by
  refine ⟨?_, by decide, by decide, by decide⟩
  simp [renderHTML, renderElement, renderListElement, renderChildrenL, renderNode,
    renderTextNode, needsSpacing, pWrite, pSetFont, pLn, pSetX, pseq, cleanText,
    cleanTextAux, trimSpaceG, chars, isGoRegexSpace, liMarker, findParentB,
    countPreviousSiblings, natToStr, writeTexts, widthQ, widthN, fontStyleNormal,
    defaultFontSize, defaultLineHeight, indentWidth, Nat.toDigits, Nat.toDigitsCore,
    Nat.digitChar, envFix, stFix, pdfMargin, cxNestedList]

/-- C8 (amended): for every li, the operations begin with the
indentation SetX followed by a Write of the marker, which is "N. "
with N = 1 + the number of preceding element siblings when the li has
an ol ancestor, and "• " otherwise. -/
theorem renderListElement_marker (env : REnv) (anc : List (Bool × Str))
    (lsibs : List HNode) (attrs : List (Str × Str)) (cs : List HNode) (s : RState) :
    ∃ v rest, (renderListElement env anc lsibs (chars "li") attrs cs s).ops =
      Op.setX v :: Op.write defaultLineHeight
        (if findParentB anc (chars "ol") then
          natToStr (countPreviousSiblings lsibs + 1) ++ chars ". "
        else chars "• ") :: rest := by
  have h1 : ¬ (chars "li" = chars "ul" ∨ chars "li" = chars "ol") := by decide
  simp only [renderListElement]
  rw [if_neg h1]
  simp only [if_true]
  split
  all_goals simp [pseq, pSetX, pWrite, liMarker]
  all_goals exact ⟨_, _, rfl⟩

/-- C9: rendering an h1 while the cursor is beyond page height minus
100 mm performs the threshold page break and then h1's unconditional
page break, with no operation in between: the log starts with two
consecutive AddPage operations, leaving a blank content page. -/
theorem renderHeading_h1_blank_page (env : REnv) (anc : List (Bool × Str))
    (attrs : List (Str × Str)) (cs : List HNode) (s : RState)
    (h : s.y > pageHeightA4 - 100) :
    ∃ rest, (renderHeading env anc (chars "h1") attrs cs s).ops =
      Op.addPage :: Op.addPage :: rest := by
  simp only [renderHeading]
  rw [if_pos h]
  simp only [if_true]
  split
  all_goals simp [pseq, pAddPage, setHeadingStyleGo, pSetFont, pLn]
  all_goals exact ⟨_, rfl⟩

/-- Witness for C9 at a concrete input: cursor at 250 mm on the
297 mm page. -/
theorem renderHeading_h1_blank_page_w :
    ∃ rest, (renderHeading envFix [] (chars "h1") [] [] stDeep).ops =
      Op.addPage :: Op.addPage :: rest :=
  renderHeading_h1_blank_page envFix [] [] [] stDeep (by norm_num [stDeep, pageHeightA4])

lemma widthN_cons (cw : Char → Nat) (c : Char) (l : Str) :
    widthN cw (c :: l) = cw c + widthN cw l := by
  simp [widthN]

lemma not_mem_space_splitOnSpace {s : Str} :
    ∀ u ∈ splitOnSpace s, ' ' ∉ u := by
  induction s with
  | nil => intro u hu; simp [splitOnSpace] at hu; simp [hu]
  | cons c cs ih =>
    intro u hu
    by_cases hc : c = ' '
    · simp only [splitOnSpace, if_pos hc] at hu
      rcases List.mem_cons.mp hu with h | h
      · simp [h]
      · exact ih u h
    · simp only [splitOnSpace, if_neg hc] at hu
      cases hs : splitOnSpace cs with
      | nil => exact absurd hs (splitOnSpace_ne_nil cs)
      | cons w ws =>
        rw [hs] at hu
        rcases List.mem_cons.mp hu with h | h
        · subst h
          intro hsp
          rcases List.mem_cons.mp hsp with h1 | h1
          · exact hc h1.symm
          · exact ih w (by rw [hs]; exact List.mem_cons_self w ws) h1
        · exact ih u (by rw [hs]; exact List.mem_cons_of_mem w h)

lemma joinSpace_cons_eq (us : List Str) :
    ∀ u, joinSpace (u :: us) = u ++ joinTail us := by
  induction us with
  | nil => intro u; simp [joinSpace, joinTail]
  | cons v vs ih =>
    intro u
    show joinSpace (u :: v :: vs) = u ++ joinTail (v :: vs)
    rw [joinSpace, ih v]
    simp [joinTail]

lemma joinTail_eq_cons {us : List Str} (h : us ≠ []) :
    joinTail us = ' ' :: joinSpace us := by
  cases us with
  | nil => exact absurd rfl h
  | cons u vs =>
    rw [joinSpace_cons_eq vs u]
    simp [joinTail]

lemma joinSpace_splitOnSpace (s : Str) : joinSpace (splitOnSpace s) = s := by
  induction s with
  | nil => rfl
  | cons c cs ih =>
    by_cases hc : c = ' '
    · subst hc
      simp only [splitOnSpace, if_pos rfl, if_true]
      rw [joinSpace_cons_eq (splitOnSpace cs) [],
        joinTail_eq_cons (splitOnSpace_ne_nil cs), ih]
      simp
    · simp only [splitOnSpace, if_neg hc]
      cases hs : splitOnSpace cs with
      | nil => exact absurd hs (splitOnSpace_ne_nil cs)
      | cons w ws =>
        rw [hs] at ih
        rw [joinSpace_cons_eq ws (c :: w)]
        rw [joinSpace_cons_eq ws w] at ih
        simpa using ih

lemma splitOnSpace_append (a b : Str) :
    splitOnSpace (a ++ ' ' :: b) = splitOnSpace a ++ splitOnSpace b := by
  induction a with
  | nil => simp [splitOnSpace]
  | cons c cs ih =>
    by_cases hc : c = ' '
    · simp [splitOnSpace, hc, ih]
    · simp only [List.cons_append, splitOnSpace, if_neg hc]
      cases hs : splitOnSpace cs with
      | nil => exact absurd hs (splitOnSpace_ne_nil cs)
      | cons w ws =>
        simp only [List.append_eq]
        rw [ih, hs]
        simp

lemma splitOnSpace_of_no_space {u : Str} (h : ' ' ∉ u) : splitOnSpace u = [u] := by
  induction u with
  | nil => rfl
  | cons c cs ih =>
    have hc : ¬ c = ' ' := fun hcc => h (by simp [hcc])
    have hrest : ' ' ∉ cs := fun hm => h (by simp [hm])
    simp only [splitOnSpace, if_neg hc, ih hrest]

lemma widthN_le_of_mem_joinSpace (cw : Char → Nat) {L : List Str} {u : Str}
    (h : u ∈ L) : widthN cw u ≤ widthN cw (joinSpace L) := by
  induction L with
  | nil => simp at h
  | cons a L' ih =>
    rw [joinSpace_cons_eq L' a, widthN_append]
    rcases List.mem_cons.mp h with h1 | h1
    · subst h1; exact Nat.le_add_right _ _
    · have hL' : L' ≠ [] := List.ne_nil_of_mem h1
      rw [joinTail_eq_cons hL', widthN_cons]
      have := ih h1
      omega

lemma splitOnSpace_joinSpace_flat {L : List Str} (h : L ≠ []) :
    splitOnSpace (joinSpace L) = (L.map splitOnSpace).flatten := by
  induction L with
  | nil => exact absurd rfl h
  | cons l L' ih =>
    cases L' with
    | nil => simp [joinSpace]
    | cons l2 ls =>
      rw [show joinSpace (l :: l2 :: ls) = l ++ ' ' :: joinSpace (l2 :: ls) from rfl,
        splitOnSpace_append, ih (by simp)]
      simp

lemma widthN_le_of_mem_splitOnSpace (cw : Char → Nat) {l u : Str}
    (h : u ∈ splitOnSpace l) : widthN cw u ≤ widthN cw l := by
  have := widthN_le_of_mem_joinSpace cw h
  rwa [joinSpace_splitOnSpace] at this

lemma joinTail_cons (u : Str) (us : List Str) :
    joinTail (u :: us) = (' ' :: u) ++ joinTail us := by
  simp [joinTail]

lemma wrapLoop_absorb (cw : Char → Nat) (w : ℚ) :
    ∀ (us : List Str) (rest : List Str) (p : Str), p ≠ [] →
      (widthN cw (p ++ joinTail us) : ℚ) ≤ w →
      wrapLoop cw w p (us ++ rest) = wrapLoop cw w (p ++ joinTail us) rest := by
  intro us
  induction us with
  | nil => intro rest p hp hw; simp [joinTail]
  | cons u us ih =>
    intro rest p hp hw
    have hwid : widthN cw (p ++ joinTail (u :: us)) =
        widthN cw (p ++ ' ' :: u) + widthN cw (joinTail us) := by
      rw [joinTail_cons, ← List.append_assoc, widthN_append]
    have hfit : ¬ ((widthN cw (p ++ ' ' :: u) : ℚ) > w) := by
      refine not_lt.mpr (le_trans ?_ hw)
      exact_mod_cast Nat.le.intro hwid.symm
    have hpne : p ++ ' ' :: u ≠ [] := by
      cases p with
      | nil => exact absurd rfl hp
      | cons a b => simp
    have hstep : wrapLoop cw w p ((u :: us) ++ rest) =
        wrapLoop cw w (p ++ ' ' :: u) (us ++ rest) := by
      simp only [List.cons_append, wrapLoop, if_neg hp, if_neg hfit, List.append_eq]
    rw [hstep, ih rest (p ++ ' ' :: u) hpne (by rw [List.append_assoc, ← joinTail_cons]; exact hw)]
    rw [List.append_assoc, ← joinTail_cons]

lemma wrapLoop_consume_line (cw : Char → Nat) (w : ℚ) (cl : Str) (rest : List Str)
    (hne : cl ≠ []) (hhead : cl.head? ≠ some ' ') (hw : (widthN cw cl : ℚ) ≤ w) :
    wrapLoop cw w [] (splitOnSpace cl ++ rest) = wrapLoop cw w cl rest := by
  obtain ⟨c, cs, rfl⟩ : ∃ c cs, cl = c :: cs := by
    cases cl with
    | nil => exact absurd rfl hne
    | cons c cs => exact ⟨c, cs, rfl⟩
  have hc : ¬ c = ' ' := by simpa using hhead
  cases hs : splitOnSpace cs with
  | nil => exact absurd hs (splitOnSpace_ne_nil cs)
  | cons w0 ws0 =>
    have hsplit : splitOnSpace (c :: cs) = (c :: w0) :: ws0 := by
      simp only [splitOnSpace, if_neg hc, hs]
    have hjoin : (c :: w0) ++ joinTail ws0 = c :: cs := by
      have hj := joinSpace_splitOnSpace (c :: cs)
      rw [hsplit, joinSpace_cons_eq] at hj
      exact hj
    have hfit : ¬ ((widthN cw (c :: w0) : ℚ) > w) := by
      refine not_lt.mpr (le_trans ?_ hw)
      have : widthN cw (c :: w0) ≤ widthN cw (c :: cs) := by
        conv_rhs => rw [← hjoin]
        rw [widthN_append]
        omega
      exact_mod_cast this
    rw [hsplit]
    have hstep : wrapLoop cw w [] (((c :: w0) :: ws0) ++ rest) =
        wrapLoop cw w (c :: w0) (ws0 ++ rest) := by
      simp only [List.cons_append, wrapLoop, if_neg hfit, if_pos rfl, if_true, List.append_eq]
    rw [hstep, wrapLoop_absorb cw w ws0 rest (c :: w0) (by simp)
      (by rw [hjoin]; exact hw), hjoin]

lemma head_cond_of_words (cw : Char → Nat) (w : ℚ) {v : Str}
    (hwv : (widthN cw v : ℚ) ≤ w) (hsp : ' ' ∉ v) :
    v = [] ∨ (v.head? ≠ some ' ' ∧ (widthN cw v : ℚ) ≤ w) := by
  cases v with
  | nil => exact Or.inl rfl
  | cons c cs =>
    refine Or.inr ⟨?_, hwv⟩
    simp only [List.head?_cons, ne_eq, Option.some.injEq]
    intro hcc
    exact hsp (by simp [hcc])

lemma wrapLoop_good_lines (cw : Char → Nat) (w : ℚ) :
    ∀ (vs : List Str) (cl : Str),
      (∀ v ∈ vs, (widthN cw v : ℚ) ≤ w ∧ ' ' ∉ v) →
      (cl = [] ∨ (cl.head? ≠ some ' ' ∧ (widthN cw cl : ℚ) ≤ w)) →
      ∀ l ∈ wrapLoop cw w cl vs,
        l ≠ [] ∧ l.head? ≠ some ' ' ∧ (widthN cw l : ℚ) ≤ w := by
  intro vs
  induction vs with
  | nil =>
    intro cl hvs hcl l hl
    by_cases hc : cl = []
    · simp [wrapLoop, hc] at hl
    · simp only [wrapLoop, if_neg hc] at hl
      rcases List.mem_singleton.mp hl with rfl
      rcases hcl with h | h
      · exact absurd h hc
      · exact ⟨hc, h.1, h.2⟩
  | cons v vs ih =>
    intro cl hvs hcl l hl
    have hv := hvs v (by simp)
    have hvs' : ∀ x ∈ vs, (widthN cw x : ℚ) ≤ w ∧ ' ' ∉ x :=
      fun x hx => hvs x (by simp [hx])
    have hclv := head_cond_of_words cw w hv.1 hv.2
    by_cases hc : cl = []
    · subst hc
      have hfit : ¬ ((widthN cw v : ℚ) > w) := not_lt.mpr hv.1
      simp only [wrapLoop, if_pos rfl, if_true, if_neg hfit] at hl
      exact ih v hvs' hclv l hl
    · rcases hcl with h | hclr
      · exact absurd h hc
      by_cases hov : (widthN cw (cl ++ ' ' :: v) : ℚ) > w
      · simp only [wrapLoop, if_neg hc, if_pos hov] at hl
        rcases List.mem_cons.mp hl with rfl | hmem
        · exact ⟨hc, hclr.1, hclr.2⟩
        · exact ih v hvs' hclv l hmem
      · simp only [wrapLoop, if_neg hc, if_neg hov] at hl
        refine ih (cl ++ ' ' :: v) hvs' (Or.inr ⟨?_, not_lt.mp hov⟩) l hl
        cases cl with
        | nil => exact absurd rfl hc
        | cons a b => simpa using hclr.1

lemma wrapLoop_first_line (cw : Char → Nat) (w : ℚ) :
    ∀ (vs : List Str) (cl : Str), cl ≠ [] →
      ∃ r ls, wrapLoop cw w cl vs = (cl ++ r) :: ls ∧
        (r = [] ∨ r.head? = some ' ') := by
  intro vs
  induction vs with
  | nil =>
    intro cl hc
    exact ⟨[], [], by simp [wrapLoop, hc], Or.inl rfl⟩
  | cons v vs ih =>
    intro cl hc
    by_cases hov : (widthN cw (cl ++ ' ' :: v) : ℚ) > w
    · refine ⟨[], wrapLoop cw w v vs, ?_, Or.inl rfl⟩
      simp only [wrapLoop, if_neg hc, if_pos hov, List.append_nil]
    · have hne : cl ++ ' ' :: v ≠ [] := by
        cases cl with
        | nil => exact absurd rfl hc
        | cons a b => simp
      obtain ⟨r, ls, heq, _⟩ := ih (cl ++ ' ' :: v) hne
      refine ⟨' ' :: (v ++ r), ls, ?_, Or.inr rfl⟩
      have hstep : wrapLoop cw w cl (v :: vs) = wrapLoop cw w (cl ++ ' ' :: v) vs := by
        simp only [wrapLoop, if_neg hc, if_neg hov]
      rw [hstep, heq]
      simp

lemma wrapLoop_idem_core (cw : Char → Nat) (w : ℚ) :
    ∀ (vs : List Str) (cl : Str),
      (∀ v ∈ vs, (widthN cw v : ℚ) ≤ w ∧ ' ' ∉ v) →
      (cl = [] ∨ (cl.head? ≠ some ' ' ∧ (widthN cw cl : ℚ) ≤ w)) →
      wrapLoop cw w [] ((wrapLoop cw w cl vs).map splitOnSpace).flatten =
        wrapLoop cw w cl vs := by
  intro vs
  induction vs with
  | nil =>
    intro cl hvs hcl
    by_cases hc : cl = []
    · simp [wrapLoop, hc]
    · rcases hcl with h | ⟨hh, hwcl⟩
      · exact absurd h hc
      have hout : wrapLoop cw w cl [] = [cl] := by simp [wrapLoop, hc]
      rw [hout]
      have hcons := wrapLoop_consume_line cw w cl [] hc hh hwcl
      rw [hout] at hcons
      simpa using hcons
  | cons v vs ih =>
    intro cl hvs hcl
    have hv := hvs v (by simp)
    have hvs' : ∀ x ∈ vs, (widthN cw x : ℚ) ≤ w ∧ ' ' ∉ x :=
      fun x hx => hvs x (by simp [hx])
    have hclv := head_cond_of_words cw w hv.1 hv.2
    by_cases hc : cl = []
    · subst hc
      have hfit : ¬ ((widthN cw v : ℚ) > w) := not_lt.mpr hv.1
      have hstep : wrapLoop cw w [] (v :: vs) = wrapLoop cw w v vs := by
        simp only [wrapLoop, if_pos rfl, if_true, if_neg hfit]
      rw [hstep]
      exact ih v hvs' hclv
    · rcases hcl with h | ⟨hh, hwcl⟩
      · exact absurd h hc
      by_cases hov : (widthN cw (cl ++ ' ' :: v) : ℚ) > w
      · -- flush: the finished line is cl and the loop restarts at v
        have hout : wrapLoop cw w cl (v :: vs) = cl :: wrapLoop cw w v vs := by
          simp only [wrapLoop, if_neg hc, if_pos hov]
        rw [hout]
        simp only [List.map_cons, List.flatten_cons]
        rw [wrapLoop_consume_line cw w cl _ hc hh hwcl]
        have hihv := ih v hvs' hclv
        cases hfw : ((wrapLoop cw w v vs).map splitOnSpace).flatten with
        | nil =>
          rw [hfw] at hihv
          have hout0 : wrapLoop cw w v vs = [] := by
            rw [← hihv]; simp [wrapLoop]
          rw [hout0]
          simp [wrapLoop, hc]
        | cons b1 bs =>
          rw [hfw] at hihv
          have hone : wrapLoop cw w v vs ≠ [] := by
            intro h0
            rw [h0] at hfw
            simp at hfw
          obtain ⟨l1, ls', houts⟩ : ∃ l1 ls', wrapLoop cw w v vs = l1 :: ls' := by
            cases hq : wrapLoop cw w v vs with
            | nil => exact absurd hq hone
            | cons a b => exact ⟨a, b, rfl⟩
          have hl1 : l1 ≠ [] ∧ l1.head? ≠ some ' ' ∧ (widthN cw l1 : ℚ) ≤ w :=
            wrapLoop_good_lines cw w vs v hvs' hclv l1 (by rw [houts]; simp)
          have hflat := hfw
          rw [houts] at hflat
          simp only [List.map_cons, List.flatten_cons] at hflat
          obtain ⟨x, xs, hxl⟩ : ∃ x xs, splitOnSpace l1 = x :: xs := by
            cases hq : splitOnSpace l1 with
            | nil => exact absurd hq (splitOnSpace_ne_nil l1)
            | cons a b => exact ⟨a, b, rfl⟩
          rw [hxl, List.cons_append] at hflat
          have hxb : x = b1 := (List.cons.injEq _ _ _ _ ▸ hflat).1
          have hwb1 : (widthN cw b1 : ℚ) ≤ w := by
            rw [← hxb]
            refine le_trans ?_ hl1.2.2
            exact_mod_cast widthN_le_of_mem_splitOnSpace cw (by rw [hxl]; simp)
          have hov2 : (widthN cw (cl ++ ' ' :: b1) : ℚ) > w := by
            cases hveq : v with
            | nil =>
              have h1 : widthN cw (cl ++ [' ']) ≤ widthN cw (cl ++ ' ' :: b1) := by
                rw [widthN_append, widthN_append, widthN_cons, widthN_cons]
                simp only [widthN_nil]
                omega
              calc w < (widthN cw (cl ++ ' ' :: v) : ℚ) := hov
                _ = (widthN cw (cl ++ [' ']) : ℚ) := by rw [hveq]
                _ ≤ _ := by exact_mod_cast h1
            | cons c0 v0 =>
              have hvne : v ≠ [] := by rw [hveq]; simp
              obtain ⟨r, ls2, hfst, hr⟩ := wrapLoop_first_line cw w vs v hvne
              have hl1v : l1 = v ++ r := by
                have hcomb := houts.symm.trans hfst
                exact (List.cons.injEq _ _ _ _ ▸ hcomb).1
              have hxv : x = v := by
                rcases hr with hr0 | hrsp
                · rw [hr0, List.append_nil] at hl1v
                  rw [hl1v, splitOnSpace_of_no_space hv.2] at hxl
                  exact ((List.cons.injEq _ _ _ _ ▸ hxl).1).symm
                · cases r with
                  | nil => simp at hrsp
                  | cons a r' =>
                    have ha : a = ' ' := by simpa using hrsp
                    subst ha
                    rw [hl1v, splitOnSpace_append, splitOnSpace_of_no_space hv.2,
                      List.cons_append, List.nil_append] at hxl
                    exact ((List.cons.injEq _ _ _ _ ▸ hxl).1).symm
              rw [← hxb, hxv]
              exact hov
          have hstep2 : wrapLoop cw w cl (b1 :: bs) = cl :: wrapLoop cw w b1 bs := by
            simp only [wrapLoop, if_neg hc, if_pos hov2]
          have hfitb : ¬ ((widthN cw b1 : ℚ) > w) := not_lt.mpr hwb1
          have hstep3 : wrapLoop cw w [] (b1 :: bs) = wrapLoop cw w b1 bs := by
            simp only [wrapLoop, if_pos rfl, if_true, if_neg hfitb]
          rw [hstep2, ← hihv, hstep3]
      · -- the word still fits on the current line
        have hstep : wrapLoop cw w cl (v :: vs) = wrapLoop cw w (cl ++ ' ' :: v) vs := by
          simp only [wrapLoop, if_neg hc, if_neg hov]
        rw [hstep]
        refine ih (cl ++ ' ' :: v) hvs' (Or.inr ⟨?_, not_lt.mp hov⟩)
        cases cl with
        | nil => exact absurd rfl hc
        | cons a b => simpa using hh

/-- C7: text wrapping is idempotent: when no single word of the input
has width exceeding w, re-wrapping the space-join of the wrapped lines
yields exactly the same lines. -/
theorem splitText_idem (cw : Char → Nat) (s : Str) (w : ℚ)
    (h : ∀ u ∈ splitOnSpace s, (widthN cw u : ℚ) ≤ w) :
    SplitText cw (joinSpace (SplitText cw s w)) w = SplitText cw s w := by
  by_cases hs : s = []
  · simp [SplitText, hs, joinSpace]
  · have hvs : ∀ v ∈ splitOnSpace s, (widthN cw v : ℚ) ≤ w ∧ ' ' ∉ v :=
      fun v hv => ⟨h v hv, not_mem_space_splitOnSpace v hv⟩
    simp only [SplitText, if_neg hs]
    cases hco : wrapLoop cw w [] (splitOnSpace s) with
    | nil => simp [SplitText, joinSpace, wrapLoop]
    | cons l1 ls =>
      have hl1 := wrapLoop_good_lines cw w (splitOnSpace s) [] hvs (Or.inl rfl) l1
        (by rw [hco]; simp)
      have hjs_ne : joinSpace (l1 :: ls) ≠ [] := by
        rw [joinSpace_cons_eq]
        intro hemp
        exact hl1.1 (List.append_eq_nil.mp hemp).1
      rw [if_neg hjs_ne, splitOnSpace_joinSpace_flat (by simp), ← hco]
      exact wrapLoop_idem_core cw w (splitOnSpace s) [] hvs (Or.inl rfl)

/-- Witness for C7 at a concrete input: unit character widths, width
bound 5, input "aa bb cc". -/
theorem splitText_idem_w :
    SplitText (fun _ => 1) (joinSpace (SplitText (fun _ => 1) (chars "aa bb cc") 5)) 5 =
      SplitText (fun _ => 1) (chars "aa bb cc") 5 :=
  splitText_idem (fun _ => 1) (chars "aa bb cc") 5 (by decide)

end Bookie
